import Mathlib

/-!
Verification of the Appointment Scheduling & Commission Ledger subsystem of
the Byootify platform, as described by its requirements document.  The
repository ships only the requirements/architecture document; the Calendar
Store, Booking State Machine, Fee Policy Engine, Ledger and Payout Scheduler
are therefore modelled here directly from the specification text.
-/

namespace Byootify

/-- Modelled from the spec: the `BookedInterval {start, end, appointment_id}`
of the data model is a half-open interval `[start, end)` of instants
(seconds).  The `end` field is spelled `stop` because `end` is a Lean
keyword; the `appointment_id` tag plays no role in the scheduling logic and
is omitted. -/
structure Interval where
  start : Nat
  stop : Nat
  deriving DecidableEq

/-- Modelled from the spec: the boolean half-open overlap test of the
Calendar Store, `start < other.end && other.start < end`. -/
def overlapb (i j : Interval) : Bool :=
  decide (i.start < j.stop) && decide (j.start < i.stop)

/-- Two half-open intervals share an instant: some time `t` lies in both. -/
def sharesInstant (i j : Interval) : Prop :=
  ∃ t : Nat, (i.start ≤ t ∧ t < i.stop) ∧ (j.start ≤ t ∧ t < j.stop)

/-- Modelled from the spec: a calendar entry is either a tentative hold,
carrying its expiry instant, or a confirmed durable booking. -/
inductive HoldStatus where
  | tentative (expiry : Nat)
  | confirmedHold
  deriving DecidableEq

/-- One committed entry of a provider calendar. -/
structure CalEntry where
  interval : Interval
  status : HoldStatus
  deriving DecidableEq

/-- Calendar Store state: booked entries tagged with their provider id. -/
abbrev Store := List (Nat × CalEntry)

/-- All calendar entries belonging to one provider. -/
def entriesFor (s : Store) (pid : Nat) : List CalEntry :=
  (s.filter (fun e => decide (e.1 = pid))).map (fun e => e.2)

/-- Modelled from the spec: default expiry of a tentative hold, 10 minutes
(600 seconds). -/
def holdTTL : Nat := 600

inductive ReserveResult where
  | reserved (s : Store)
  | conflict
  deriving DecidableEq

/-- Modelled from the spec: `tryReserve(provider_id, interval)` checks the
candidate against all existing intervals for the provider, admits only if
disjoint from every one of them under the half-open overlap test, and on
success inserts a tentative hold expiring `holdTTL` after `now`.  Per-provider
atomicity of check-and-insert is modelled by the whole operation being a
single function of the store. -/
def tryReserve (now : Nat) (s : Store) (pid : Nat) (iv : Interval) : ReserveResult :=
  if (entriesFor s pid).all (fun e => !overlapb iv e.interval) then
    .reserved ((pid, ⟨iv, .tentative (now + holdTTL)⟩) :: s)
  else
    .conflict

/-- Modelled from the spec: `release(provider_id, interval)` removes the
provider's booking of that interval from the store. -/
def release (s : Store) (pid : Nat) (iv : Interval) : Store :=
  s.filter (fun e => !decide (e.1 = pid ∧ e.2.interval = iv))

/-- A calendar entry whose tentative hold has lapsed at instant `now`;
confirmed bookings never lapse. -/
def lapsedAt (now : Nat) (st : HoldStatus) : Bool :=
  match st with
  | .tentative expiry => decide (expiry ≤ now)
  | .confirmedHold => false

/-- Modelled from the spec: the background sweep releases every tentative
hold not confirmed before its expiry. -/
def sweepHolds (now : Nat) (s : Store) : Store :=
  s.filter (fun e => ! lapsedAt now e.2.status)

inductive ConfirmResult where
  | promoted (s : Store)
  | reservationExpired
  | notFound
  deriving DecidableEq

/-- Replace the provider's entry for `iv` by a confirmed durable booking. -/
def promote (s : Store) (pid : Nat) (iv : Interval) : Store :=
  s.map (fun e => if e.1 = pid ∧ e.2.interval = iv then (pid, ⟨iv, .confirmedHold⟩) else e)

/-- Modelled from the spec: `confirm(provider_id, interval)` promotes a
still-valid tentative hold to a durable booking and fails with
`ReservationExpired` if the hold already lapsed. -/
def confirmHold (now : Nat) (s : Store) (pid : Nat) (iv : Interval) : ConfirmResult :=
  match s.find? (fun e => decide (e.1 = pid ∧ e.2.interval = iv)) with
  | none => .notFound
  | some e =>
    if lapsedAt now e.2.status then .reservationExpired
    else .promoted (promote s pid iv)

/-- Modelled from the spec: the Calendar Store invariant — for any provider,
all intervals in the set are pairwise disjoint (no shared instant). -/
def CalInvariant (s : Store) : Prop :=
  s.Pairwise (fun a b => a.1 = b.1 → ¬ sharesInstant a.2.interval b.2.interval)

/-- A shared instant forces the boolean overlap test to fire. -/
theorem overlapb_of_shares {i j : Interval} (h : sharesInstant i j) :
    overlapb i j = true := by
  obtain ⟨t, ⟨h1, h2⟩, h3, h4⟩ := h
  simp only [overlapb, Bool.and_eq_true, decide_eq_true_eq]
  omega

/-- For nonempty intervals the boolean overlap test certifies a shared
instant. -/
theorem shares_of_overlapb {i j : Interval}
    (hi : i.start < i.stop) (hj : j.start < j.stop)
    (h : overlapb i j = true) : sharesInstant i j := by
  simp only [overlapb, Bool.and_eq_true, decide_eq_true_eq] at h
  exact ⟨max i.start j.start, ⟨by omega, by omega⟩, by omega, by omega⟩

/-- Membership in a provider's entry list is membership in the store. -/
theorem mem_entriesFor {s : Store} {pid : Nat} {c : CalEntry} :
    c ∈ entriesFor s pid ↔ (pid, c) ∈ s := by
  simp only [entriesFor, List.mem_map, List.mem_filter, decide_eq_true_eq]
  constructor
  · rintro ⟨⟨p, c2⟩, ⟨hm, hp⟩, hc⟩
    subst hp
    cases hc
    exact hm
  · intro hm
    exact ⟨(pid, c), ⟨hm, rfl⟩, rfl⟩

/-- Claim C1: for every provider, the booked intervals held in the Calendar
Store are pairwise disjoint (no shared instant), and this invariant is
preserved by both admission (`tryReserve`) and `release`. -/
theorem calendar_disjointness_preserved (s : Store) (h : CalInvariant s) :
    (∀ now pid iv s2, tryReserve now s pid iv = .reserved s2 → CalInvariant s2) ∧
    (∀ pid iv, CalInvariant (release s pid iv)) := by
  constructor
  · intro now pid iv s2 hr
    unfold tryReserve at hr
    split at hr
    case isFalse => exact absurd hr (by simp)
    case isTrue hall =>
      rw [List.all_eq_true] at hall
      cases hr
      refine List.Pairwise.cons ?_ h
      intro b hb heq
      have hbmem : b.2 ∈ entriesFor s pid := by
        rw [mem_entriesFor]
        have : b = (pid, b.2) := by
          rcases b with ⟨p, c⟩
          simp at heq
          simp [heq]
        rw [← this]
        exact hb
      have := hall b.2 hbmem
      simp only [Bool.not_eq_eq_eq_not, Bool.not_true] at this
      intro hsh
      exact absurd (overlapb_of_shares hsh) (by simp [this])
  · intro pid iv
    exact List.Pairwise.sublist (List.filter_sublist s) h

/-- Witness for C1 at a concrete one-entry store. -/
theorem calendar_disjointness_preserved_witness :
    CalInvariant (release [((1 : Nat), ⟨⟨0, 10⟩, .confirmedHold⟩)] 1 ⟨0, 10⟩) :=
  (calendar_disjointness_preserved [((1 : Nat), ⟨⟨0, 10⟩, .confirmedHold⟩)]
    (by simp [CalInvariant])).2 1 ⟨0, 10⟩

/-- Claim C2: admission is atomic per provider — when two `tryReserve`
requests for overlapping intervals on the same provider are serialized, the
second always observes the first and fails with a conflict, so the two never
both succeed: exactly one wins. -/
theorem concurrent_overlapping_reserve_exclusive
    (now1 now2 pid : Nat) (s s1 : Store) (i1 i2 : Interval)
    (hov : sharesInstant i1 i2)
    (h1 : tryReserve now1 s pid i1 = .reserved s1) :
    tryReserve now2 s1 pid i2 = .conflict := by
  unfold tryReserve at h1
  split at h1
  case isFalse => exact absurd h1 (by simp)
  case isTrue =>
    cases h1
    have hsym : sharesInstant i2 i1 := by
      obtain ⟨t, ha, hb⟩ := hov
      exact ⟨t, hb, ha⟩
    unfold tryReserve
    rw [if_neg]
    intro hall
    rw [List.all_eq_true] at hall
    have hmem : (⟨i1, .tentative (now1 + holdTTL)⟩ : CalEntry) ∈
        entriesFor ((pid, ⟨i1, .tentative (now1 + holdTTL)⟩) :: s) pid := by
      rw [mem_entriesFor]
      exact List.mem_cons_self _ _
    have := hall _ hmem
    rw [overlapb_of_shares hsym] at this
    simp at this

/-- Witness for C2: reserving `[0,10)` on an empty calendar succeeds, after
which reserving the overlapping `[5,15)` conflicts. -/
theorem concurrent_overlapping_reserve_exclusive_witness :
    tryReserve 0 [((1 : Nat), ⟨⟨0, 10⟩, .tentative 600⟩)] 1 ⟨5, 15⟩ = .conflict :=
  concurrent_overlapping_reserve_exclusive 0 0 1 []
    [((1 : Nat), ⟨⟨0, 10⟩, .tentative 600⟩)] ⟨0, 10⟩ ⟨5, 15⟩
    ⟨5, by decide⟩ (by decide)

/-- Claim C8: for nonempty intervals, `tryReserve` succeeds exactly when the
candidate shares no instant with any existing interval of the provider, and
a candidate separated from every existing interval by at most a common
boundary instant (back-to-back) is admitted. -/
theorem tryReserve_succeeds_iff_disjoint
    (now pid : Nat) (s : Store) (iv : Interval)
    (hiv : iv.start < iv.stop)
    (hwf : ∀ e ∈ entriesFor s pid, e.interval.start < e.interval.stop) :
    ((∃ s2, tryReserve now s pid iv = .reserved s2) ↔
      ∀ e ∈ entriesFor s pid, ¬ sharesInstant iv e.interval) ∧
    ((∀ e ∈ entriesFor s pid, e.interval.stop ≤ iv.start ∨ iv.stop ≤ e.interval.start) →
      ∃ s2, tryReserve now s pid iv = .reserved s2) := by
  have hiff : (∃ s2, tryReserve now s pid iv = .reserved s2) ↔
      ∀ e ∈ entriesFor s pid, ¬ sharesInstant iv e.interval := by
    unfold tryReserve
    split
    case isTrue hall =>
      rw [List.all_eq_true] at hall
      constructor
      · intro _ e he hsh
        have := hall e he
        rw [overlapb_of_shares hsh] at this
        simp at this
      · intro _
        exact ⟨_, rfl⟩
    case isFalse hnall =>
      constructor
      · rintro ⟨s2, hs2⟩
        exact absurd hs2 (by simp)
      · intro hdisj
        exfalso
        apply hnall
        rw [List.all_eq_true]
        intro e he
        simp only [Bool.not_eq_eq_eq_not, Bool.not_true]
        by_contra hne
        have hov : overlapb iv e.interval = true := by
          cases hb : overlapb iv e.interval
          · exact absurd (by simp [hb]) hne
          · rfl
        exact hdisj e he (shares_of_overlapb hiv (hwf e he) hov)
  refine ⟨hiff, ?_⟩
  intro hsep
  rw [hiff]
  intro e he hsh
  obtain ⟨t, ⟨h1, h2⟩, h3, h4⟩ := hsh
  rcases hsep e he with h5 | h5 <;> omega

/-- Witness for C8: with `[0,10)` booked, the back-to-back candidate
`[10,20)` is admitted. -/
theorem tryReserve_succeeds_iff_disjoint_witness :
    ∃ s2, tryReserve 0 [((1 : Nat), ⟨⟨0, 10⟩, .confirmedHold⟩)] 1 ⟨10, 20⟩ = .reserved s2 :=
  (tryReserve_succeeds_iff_disjoint 0 1 [((1 : Nat), ⟨⟨0, 10⟩, .confirmedHold⟩)] ⟨10, 20⟩
    (by decide) (by decide)).2 (by decide)

/-- Claim C10: a tentative hold that lapses unconfirmed is released by the
background sweep, after which `tryReserve` for the slot succeeds (provided
every conflicting entry was such a lapsed hold); `confirm` on a lapsed hold
fails with `ReservationExpired`, and `confirm` on a still-valid tentative
hold promotes it to a durable booking. -/
theorem tentative_hold_expiry_lifecycle
    (now pid : Nat) (s : Store) (iv : Interval) :
    ((∀ e ∈ entriesFor s pid, overlapb iv e.interval = true →
        lapsedAt now e.status = true) →
      ∃ s2, tryReserve now (sweepHolds now s) pid iv = .reserved s2) ∧
    (∀ ex, s.find? (fun e => decide (e.1 = pid ∧ e.2.interval = iv)) =
        some (pid, ⟨iv, .tentative ex⟩) →
      ((ex ≤ now → confirmHold now s pid iv = .reservationExpired) ∧
       (now < ex → confirmHold now s pid iv = .promoted (promote s pid iv)))) := by
  constructor
  · intro hlapsed
    unfold tryReserve
    rw [if_pos]
    · exact ⟨_, rfl⟩
    · rw [List.all_eq_true]
      intro e he
      rw [mem_entriesFor] at he
      unfold sweepHolds at he
      rw [List.mem_filter] at he
      obtain ⟨hmem, hkeep⟩ := he
      simp only [Bool.not_eq_eq_eq_not, Bool.not_true]
      by_contra hne
      have hov : overlapb iv e.interval = true := by
        cases hb : overlapb iv e.interval
        · exact absurd (by simp [hb]) hne
        · rfl
      have := hlapsed e (mem_entriesFor.mpr hmem) hov
      rw [this] at hkeep
      simp at hkeep
  · intro ex hfind
    unfold confirmHold
    rw [hfind]
    constructor
    · intro hle
      simp [lapsedAt, hle]
    · intro hlt
      simp only [lapsedAt, decide_eq_true_eq]
      rw [if_neg (by omega)]

/-- Witness for C10 (Scenario D): a hold on `[0,30)` created at instant 0
with a 10-minute expiry is lapsed at instant 600: the sweep releases it and
re-reserving succeeds, while confirming it yields `ReservationExpired`; at
instant 300 the hold is still valid and confirming promotes it to a durable
booking. -/
theorem tentative_hold_expiry_lifecycle_witness :
    (∃ s2, tryReserve 600 (sweepHolds 600 [((1 : Nat), ⟨⟨0, 30⟩, .tentative 600⟩)]) 1 ⟨0, 30⟩ =
      .reserved s2) ∧
    confirmHold 600 [((1 : Nat), ⟨⟨0, 30⟩, .tentative 600⟩)] 1 ⟨0, 30⟩ = .reservationExpired ∧
    confirmHold 300 [((1 : Nat), ⟨⟨0, 30⟩, .tentative 600⟩)] 1 ⟨0, 30⟩ =
      .promoted (promote [((1 : Nat), ⟨⟨0, 30⟩, .tentative 600⟩)] 1 ⟨0, 30⟩) := by
  have h6 := tentative_hold_expiry_lifecycle 600 1
    [((1 : Nat), ⟨⟨0, 30⟩, .tentative 600⟩)] ⟨0, 30⟩
  have h3 := tentative_hold_expiry_lifecycle 300 1
    [((1 : Nat), ⟨⟨0, 30⟩, .tentative 600⟩)] ⟨0, 30⟩
  exact ⟨h6.1 (by decide), (h6.2 600 (by decide)).1 (by decide),
    (h3.2 600 (by decide)).2 (by decide)⟩

/-! ## Fee Policy Engine and Ledger -/

/-- Banker's rounding (round half to even) of the quotient `num / den`. -/
def roundHalfEven (num den : Nat) : Nat :=
  if 2 * (num % den) < den then num / den
  else if den < 2 * (num % den) then num / den + 1
  else if (num / den) % 2 = 0 then num / den else num / den + 1

/-- Modelled from the spec: the fee rates are configuration, expressed in
hundredths; the default is `{reservationHoldRate := 0.25, serviceFeeRate :=
0.10, commissionRate := 0.15, cancellationFeeRate := 0.15}`. -/
structure FeeConfig where
  reservationHoldRate : Nat
  serviceFeeRate : Nat
  commissionRate : Nat
  cancellationFeeRate : Nat
  deriving DecidableEq

def defaultConfig : FeeConfig := ⟨25, 10, 15, 15⟩

/-- `price * rate` on integer minor units (cents) with banker's rounding. -/
def rateAmount (price rate : Nat) : Nat := roundHalfEven (price * rate) 100

/-- The money accounts an entry moves value between: the client, the escrow
of captured reservation holds (the platform-held float), the platform's own
revenue, the provider's receivable, and the external payment processor. -/
inductive Account where
  | client
  | escrow
  | platform
  | provider
  | processor
  deriving DecidableEq

inductive EntryKind where
  | reservationHold
  | serviceFee
  | commission
  | cancellationFee
  | tip
  | refund
  | payout
  deriving DecidableEq

/-- Modelled from the spec: `LedgerEntry {id, appointment_id, kind, amount,
currency, created_at, idempotency_key}` with `idempotency_key =
hash(appointment_id, kind, trigger_event_id)`.  The hash is modelled as the
triple itself; amounts are integer cents moved from `source` to `dest`;
the single currency and the surrogate row id are omitted, and the owning
provider id is carried on the entry so balances can be computed. -/
structure LedgerEntry where
  appointment_id : Nat
  provider_id : Nat
  kind : EntryKind
  amount : Nat
  source : Account
  dest : Account
  created_at : Nat
  ikey : Nat × EntryKind × Nat
  deriving DecidableEq

/-- Appointment lifecycle states of the Booking State Machine. -/
inductive AState where
  | requested
  | confirmedA
  | completedA
  | cancelledA
  | noShowA
  deriving DecidableEq

/-- Modelled from the spec: `Appointment {id, client_id, provider_id,
service_price, interval, state}` (audit history omitted); the price is in
cents. -/
structure Appointment where
  id : Nat
  client_id : Nat
  provider_id : Nat
  service_price : Nat
  interval : Interval
  state : AState
  deriving DecidableEq

/-- Modelled from the spec: trigger events of the Booking State Machine,
carrying the trigger event id and the instant they occur; `complete` also
carries an optional tip amount (0 for none). -/
inductive BEvent where
  | book (trigger now : Nat)
  | complete (trigger now tip : Nat)
  | cancel (trigger now : Nat)
  | noshow (trigger now : Nat)
  deriving DecidableEq

/-- Every event other than admission ends the appointment lifecycle. -/
def isTerminalEvent : BEvent → Bool
  | .book _ _ => false
  | _ => true

/-- Modelled from the spec: default short-notice cancellation window, 24
hours (86400 seconds) before the appointment start. -/
def cancelWindow : Nat := 86400

/-- A cancellation at instant `now` is short-notice when less than
`cancelWindow` remains before the appointment start. -/
def shortNotice (now start : Nat) : Bool := decide (start < now + cancelWindow)

/-- Build a ledger entry draft for an appointment and trigger event. -/
def mkEntry (a : Appointment) (k : EntryKind) (amt : Nat) (src dst : Account)
    (trigger now : Nat) : LedgerEntry :=
  ⟨a.id, a.provider_id, k, amt, src, dst, now, (a.id, k, trigger)⟩

/-- Modelled from the spec: the pure Fee Policy Engine
`computeEntries(appointment, event) -> list of LedgerEntry drafts`.
On admission one `ReservationHold` captures `price * reservationHoldRate`
from the client into escrow.  On completion the `ServiceFee` is charged to
the client, the `Commission` is taken from the escrowed hold, the remainder
of the hold is reconciled (refunded to the client, or the shortfall charged),
and any tip passes through entirely to the provider.  On a short-notice
cancellation the `CancellationFee` is debited from the held reservation
(hence capped by it) and credited to the provider, the rest of the hold
refunded to the client; outside the window the hold is fully refunded.  On a
no-show the fee and the remaining hold both accrue to the provider. -/
def computeEntries (cfg : FeeConfig) (a : Appointment) (ev : BEvent) : List LedgerEntry :=
  match ev with
  | .book trigger now =>
    [mkEntry a .reservationHold (rateAmount a.service_price cfg.reservationHoldRate)
      .client .escrow trigger now]
  | .complete trigger now tip =>
    let hold := rateAmount a.service_price cfg.reservationHoldRate
    let c := rateAmount a.service_price cfg.commissionRate
    let base := [mkEntry a .serviceFee (rateAmount a.service_price cfg.serviceFeeRate)
                   .client .platform trigger now,
                 mkEntry a .commission c .escrow .platform trigger now]
    let recon :=
      if c ≤ hold then [mkEntry a .refund (hold - c) .escrow .client trigger now]
      else [mkEntry a .refund (c - hold) .client .escrow trigger now]
    let tips := if tip = 0 then [] else [mkEntry a .tip tip .client .provider trigger now]
    base ++ recon ++ tips
  | .cancel trigger now =>
    let hold := rateAmount a.service_price cfg.reservationHoldRate
    if shortNotice now a.interval.start then
      let fee := min (rateAmount a.service_price cfg.cancellationFeeRate) hold
      [mkEntry a .cancellationFee fee .escrow .provider trigger now,
       mkEntry a .refund (hold - fee) .escrow .client trigger now]
    else
      [mkEntry a .refund hold .escrow .client trigger now]
  | .noshow trigger now =>
    let hold := rateAmount a.service_price cfg.reservationHoldRate
    let fee := min (rateAmount a.service_price cfg.cancellationFeeRate) hold
    [mkEntry a .cancellationFee fee .escrow .provider trigger now,
     mkEntry a .refund (hold - fee) .escrow .provider trigger now]

/-- Signed change one ledger entry makes to the platform-held float (the
escrow of captured reservation holds). -/
def floatDelta (e : LedgerEntry) : Int :=
  (if e.dest = .escrow then (e.amount : Int) else 0) -
  (if e.source = .escrow then (e.amount : Int) else 0)

/-- Net change a list of entries makes to the platform-held float. -/
def floatTotal (l : List LedgerEntry) : Int := (l.map floatDelta).sum

/-- A concrete appointment at price $100.00 starting at instant 864000. -/
def apptA : Appointment := ⟨1, 100, 200, 10000, ⟨864000, 867600⟩, .confirmedA⟩

/-- Modelled from the spec: the net provider receivable derived for a
completed appointment — the service price minus the commission entries
recorded for the event (net provider payout = price − commission). -/
def providerReceivable (price : Nat) (l : List LedgerEntry) : Int :=
  (price : Int) -
    ((l.filter (fun e => decide (e.kind = .commission))).map (fun e => (e.amount : Int))).sum

/-- Result of `Ledger.append`: everything written, or nothing written with
the previously recorded entries for the duplicated keys returned. -/
inductive AppendResult where
  | appended
  | alreadyRecorded (prior : List LedgerEntry)
  deriving DecidableEq

/-- Some submitted entry's idempotency key is already present in the ledger. -/
def hasDup (l new : List LedgerEntry) : Bool :=
  new.any (fun e => l.any (fun o => decide (o.ikey = e.ikey)))

/-- Modelled from the spec: the append-only idempotent
`Ledger.append(entries) -> Result`: if any entry's idempotency key already
exists nothing is written and the prior entries are returned; otherwise all
entries are appended.  Existing entries are never updated or deleted. -/
def ledgerAppend (l new : List LedgerEntry) : List LedgerEntry × AppendResult :=
  if hasDup l new then
    (l, .alreadyRecorded (l.filter (fun o => new.any (fun e => decide (e.ikey = o.ikey)))))
  else
    (l ++ new, .appended)

/-- Joint state of one appointment and the Ledger. -/
structure Sys where
  appt : Appointment
  ledger : List LedgerEntry
  deriving DecidableEq

/-- Modelled from the spec: the Booking State Machine transition function —
`Requested --admit--> Confirmed`, `Confirmed --complete--> Completed`,
`Confirmed --cancel--> Cancelled`, `Confirmed --noshow--> NoShow` — writing
the Fee Policy Engine's entries through the idempotent Ledger append; any
event arriving in a state where its transition is not enabled (in particular
a replay) is a no-op, not an error. -/
def applyEvent (cfg : FeeConfig) (sys : Sys) (ev : BEvent) : Sys :=
  match ev, sys.appt.state with
  | .book _ _, .requested =>
    { appt := { sys.appt with state := .confirmedA },
      ledger := (ledgerAppend sys.ledger (computeEntries cfg sys.appt ev)).1 }
  | .complete _ _ _, .confirmedA =>
    { appt := { sys.appt with state := .completedA },
      ledger := (ledgerAppend sys.ledger (computeEntries cfg sys.appt ev)).1 }
  | .cancel _ _, .confirmedA =>
    { appt := { sys.appt with state := .cancelledA },
      ledger := (ledgerAppend sys.ledger (computeEntries cfg sys.appt ev)).1 }
  | .noshow _ _, .confirmedA =>
    { appt := { sys.appt with state := .noShowA },
      ledger := (ledgerAppend sys.ledger (computeEntries cfg sys.appt ev)).1 }
  | _, _ => sys

/-- Deliver the same trigger event `n` times in a row. -/
def replayN (cfg : FeeConfig) (ev : BEvent) : Nat → Sys → Sys
  | 0, sys => sys
  | n + 1, sys => applyEvent cfg (replayN cfg ev n sys) ev

/-! ## Payout Scheduler -/

/-- Modelled from the spec: signed value of a ledger entry in the provider's
balance — Commission and ServiceFee are platform-negative for the provider,
CancellationFee, Tip and remaining-hold (a refund directed to the provider)
are provider-positive, an already swept Payout is subtracted, and holds or
client refunds are neutral. -/
def providerSigned (e : LedgerEntry) : Int :=
  match e.kind with
  | .commission => -(e.amount : Int)
  | .serviceFee => -(e.amount : Int)
  | .cancellationFee => (e.amount : Int)
  | .tip => (e.amount : Int)
  | .refund => if e.dest = .provider then (e.amount : Int) else 0
  | .reservationHold => 0
  | .payout => -(e.amount : Int)

/-- Modelled from the spec: `balanceFor(provider_id, upto_time)` sums the
signed entries of the provider up to the given instant; entries already
swept are excluded through the negative `Payout` entries. -/
def balanceFor (l : List LedgerEntry) (pid : Nat) (upto : Nat) : Int :=
  ((l.filter (fun e => decide (e.provider_id = pid ∧ e.created_at ≤ upto))).map
    providerSigned).sum

/-- Modelled from the spec: default settlement hold period — funds become
payable one calendar day after their entry was recorded. -/
def settleLag : Nat := 86400

/-- The provider's balance restricted to settled funds at instant `now`. -/
def settledBalance (l : List LedgerEntry) (pid : Nat) (now : Nat) : Int :=
  ((l.filter (fun e => decide (e.provider_id = pid ∧ e.created_at + settleLag ≤ now))).map
    providerSigned).sum

/-- Modelled from the spec: the Payout Scheduler sweep for one provider —
if the settled balance is positive, emit one `Payout` ledger entry equal to
it (the external transfer hand-off is outside the core). -/
def sweepPayout (l : List LedgerEntry) (pid now trigger : Nat) : List LedgerEntry :=
  if 0 < settledBalance l pid now then
    l ++ [⟨0, pid, .payout, (settledBalance l pid now).toNat, .platform, .processor, now,
      (0, .payout, trigger)⟩]
  else l

/-! ## Fee Policy theorems -/

/-- Banker's rounding over a fixed denominator of 100 is monotone in the
numerator. -/
theorem roundHalfEven_le {a b : Nat} (h : a ≤ b) :
    roundHalfEven a 100 ≤ roundHalfEven b 100 := by
  unfold roundHalfEven
  split_ifs <;> omega

/-- Claim C3, counterexample: the entries of a single `Confirmed` event do
not sum to zero change in platform-held float — capturing the $25 hold on a
$100 booking raises the float by 2500 cents. -/
theorem float_per_event_counterexample :
    floatTotal (computeEntries defaultConfig apptA (.book 1 0)) ≠ 0 := by decide

/-- Claim C3 (amended): the hold capture and its later release balance over
the appointment lifecycle — for every rate configuration, price and terminal
event (Completed, Cancelled, NoShow), the float change of the confirmation
entries plus the float change of the terminal event's entries is zero, all
amounts being integer cents computed with banker's rounding. -/
theorem float_lifecycle_sum_to_zero
    (cfg : FeeConfig) (a : Appointment) (t0 n0 : Nat) (ev : BEvent)
    (hterm : isTerminalEvent ev = true) :
    floatTotal (computeEntries cfg a (.book t0 n0)) +
      floatTotal (computeEntries cfg a ev) = 0 := by
  cases ev with
  | book t n => simp [isTerminalEvent] at hterm
  | complete t n tip =>
    simp only [computeEntries, mkEntry]
    split_ifs <;> simp [floatTotal, floatDelta] <;> omega
  | cancel t n =>
    simp only [computeEntries, mkEntry]
    split_ifs <;> simp [floatTotal, floatDelta] <;> omega
  | noshow t n =>
    simp only [computeEntries, mkEntry]
    simp [floatTotal, floatDelta]
    omega

/-- Witness for C3 (amended) on the $100 appointment completed at its start
instant. -/
theorem float_lifecycle_sum_to_zero_witness :
    floatTotal (computeEntries defaultConfig apptA (.book 1 0)) +
      floatTotal (computeEntries defaultConfig apptA (.complete 2 864000 0)) = 0 :=
  float_lifecycle_sum_to_zero defaultConfig apptA 1 0 (.complete 2 864000 0) rfl

/-- Claim C4 (Scenario A): booking then completing a $100 appointment yields
exactly a $25 ReservationHold at confirmation, then a $10 ServiceFee, a $15
Commission and a $10 hold-reconciliation refund to the client, with the net
provider receivable equal to $85. -/
theorem scenario_a_fee_breakdown :
    computeEntries defaultConfig apptA (.book 1 0) =
      [⟨1, 200, .reservationHold, 2500, .client, .escrow, 0, (1, .reservationHold, 1)⟩] ∧
    computeEntries defaultConfig apptA (.complete 2 864000 0) =
      [⟨1, 200, .serviceFee, 1000, .client, .platform, 864000, (1, .serviceFee, 2)⟩,
       ⟨1, 200, .commission, 1500, .escrow, .platform, 864000, (1, .commission, 2)⟩,
       ⟨1, 200, .refund, 1000, .escrow, .client, 864000, (1, .refund, 2)⟩] ∧
    providerReceivable apptA.service_price
      (computeEntries defaultConfig apptA (.complete 2 864000 0)) = 8500 := by decide

/-- Claim C7: cancelling a $100 appointment inside the 24-hour short-notice
window yields a $15 CancellationFee to the provider and a $10 refund of the
remaining hold to the client; outside the window the $25 hold is fully
refunded with no fee — stated for every appointment and instant under the
default rates, with the Scenario B instance (cancel 2 hours before start). -/
theorem cancellation_fee_policy (a : Appointment) (trigger now : Nat) :
    (shortNotice now a.interval.start = true →
      computeEntries defaultConfig a (.cancel trigger now) =
        [mkEntry a .cancellationFee (rateAmount a.service_price 15)
          .escrow .provider trigger now,
         mkEntry a .refund (rateAmount a.service_price 25 - rateAmount a.service_price 15)
          .escrow .client trigger now]) ∧
    (shortNotice now a.interval.start = false →
      computeEntries defaultConfig a (.cancel trigger now) =
        [mkEntry a .refund (rateAmount a.service_price 25) .escrow .client trigger now]) ∧
    computeEntries defaultConfig apptA (.cancel trigger 856800) =
      [mkEntry apptA .cancellationFee 1500 .escrow .provider trigger 856800,
       mkEntry apptA .refund 1000 .escrow .client trigger 856800] := by
  have hmin : min (rateAmount a.service_price 15) (rateAmount a.service_price 25) =
      rateAmount a.service_price 15 :=
    min_eq_left (roundHalfEven_le (by omega))
  refine ⟨?_, ?_, ?_⟩
  · intro hs
    simp only [computeEntries, defaultConfig, hs, if_true, hmin]
  · intro hs
    simp only [computeEntries, defaultConfig, hs]
    simp
  · have h1500 : rateAmount apptA.service_price 15 = 1500 := by decide
    have h2500 : rateAmount apptA.service_price 25 = 2500 := by decide
    simp only [computeEntries, defaultConfig]
    rw [if_pos (by decide)]
    have hminA : min (rateAmount apptA.service_price 15) (rateAmount apptA.service_price 25) =
        rateAmount apptA.service_price 15 := min_eq_left (roundHalfEven_le (by omega))
    rw [hminA, h1500, h2500]

/-- Witness for C7: the concrete cancellations of the $100 appointment 2
hours before start (inside the window) and at instant 0 (outside it). -/
theorem cancellation_fee_policy_witness :
    computeEntries defaultConfig apptA (.cancel 3 856800) =
      [mkEntry apptA .cancellationFee (rateAmount apptA.service_price 15)
        .escrow .provider 3 856800,
       mkEntry apptA .refund
        (rateAmount apptA.service_price 25 - rateAmount apptA.service_price 15)
        .escrow .client 3 856800] ∧
    computeEntries defaultConfig apptA (.cancel 4 0) =
      [mkEntry apptA .refund (rateAmount apptA.service_price 25) .escrow .client 4 0] :=
  ⟨(cancellation_fee_policy apptA 3 856800).1 (by decide),
   (cancellation_fee_policy apptA 4 0).2.1 (by decide)⟩

/-! ## Ledger and Booking State Machine theorems -/

/-- Claim C6: `Ledger.append` is atomic and idempotent — the prior ledger is
always an unmodified initial segment of the result (entries are never
updated or deleted), and when any submitted entry's idempotency key already
exists, nothing at all is written and the previously recorded entries are
returned instead of an error. -/
theorem ledger_append_atomic_idempotent (l new : List LedgerEntry) :
    (∃ tail, (ledgerAppend l new).1 = l ++ tail) ∧
    ((∃ e ∈ new, ∃ o ∈ l, o.ikey = e.ikey) →
      (ledgerAppend l new).1 = l ∧
      ∃ pr, (ledgerAppend l new).2 = .alreadyRecorded pr ∧
        ∀ x, x ∈ pr ↔ (x ∈ l ∧ ∃ e ∈ new, e.ikey = x.ikey)) := by
  unfold ledgerAppend
  by_cases hd : hasDup l new = true
  · rw [if_pos hd]
    refine ⟨⟨[], (List.append_nil l).symm⟩, ?_⟩
    intro _
    refine ⟨rfl, _, rfl, ?_⟩
    intro x
    simp only [List.mem_filter, List.any_eq_true, decide_eq_true_eq]
  · rw [if_neg hd]
    refine ⟨⟨new, rfl⟩, ?_⟩
    rintro ⟨e, he, o, ho, hk⟩
    exfalso
    apply hd
    simp only [hasDup, List.any_eq_true, decide_eq_true_eq]
    exact ⟨e, he, o, ho, hk⟩

/-- A previously recorded commission entry. -/
def demoPrior : LedgerEntry :=
  ⟨1, 200, .commission, 1500, .escrow, .platform, 10, (1, .commission, 2)⟩

/-- A retried submission carrying the same idempotency key. -/
def demoRetry : LedgerEntry :=
  ⟨1, 200, .commission, 1500, .escrow, .platform, 99, (1, .commission, 2)⟩

/-- Witness for C6: re-submitting an entry with an already recorded key
writes nothing and returns exactly the prior entries for the duplicated
keys. -/
theorem ledger_append_atomic_idempotent_witness :
    (ledgerAppend [demoPrior] [demoRetry]).1 = [demoPrior] ∧
    ∃ pr, (ledgerAppend [demoPrior] [demoRetry]).2 = .alreadyRecorded pr ∧
      ∀ x, x ∈ pr ↔ (x ∈ [demoPrior] ∧ ∃ e ∈ [demoRetry], e.ikey = x.ikey) :=
  (ledger_append_atomic_idempotent [demoPrior] [demoRetry]).2 (by decide)

/-- Delivering the same trigger event twice equals delivering it once. -/
theorem applyEvent_idem (cfg : FeeConfig) (sys : Sys) (ev : BEvent) :
    applyEvent cfg (applyEvent cfg sys ev) ev = applyEvent cfg sys ev := by
  rcases sys with ⟨⟨i, ci, pi, pr, iv, st⟩, led⟩
  cases st <;> cases ev <;> rfl

/-- Claim C5: every state-machine transition is idempotent under replay —
delivering the same trigger event `n + 1` times yields exactly the same
appointment state and ledger as delivering it once, and in particular a
`complete` event arriving for an already-Completed appointment is a no-op,
not an error. -/
theorem transition_replay_idempotent (cfg : FeeConfig) (sys : Sys) (ev : BEvent) :
    (∀ n : Nat, replayN cfg ev (n + 1) sys = applyEvent cfg sys ev) ∧
    (∀ trigger now tip, sys.appt.state = .completedA →
      applyEvent cfg sys (.complete trigger now tip) = sys) := by
  constructor
  · intro n
    induction n with
    | zero => rfl
    | succ m ih =>
      show applyEvent cfg (replayN cfg ev (m + 1) sys) ev = applyEvent cfg sys ev
      rw [ih, applyEvent_idem]
  · intro trigger now tip hst
    rcases sys with ⟨⟨i, ci, pi, pr, iv, st⟩, led⟩
    simp only [Sys.appt] at hst
    cases hst
    rfl

/-- A completed appointment with an empty ledger tail. -/
def demoDone : Sys := ⟨{ apptA with state := .completedA }, []⟩

/-- Witness for C5: replaying a completion for the already-Completed
appointment changes nothing, and a triple replay equals a single delivery. -/
theorem transition_replay_idempotent_witness :
    applyEvent defaultConfig demoDone (.complete 7 864000 0) = demoDone ∧
    replayN defaultConfig (.complete 7 864000 0) 3 demoDone =
      applyEvent defaultConfig demoDone (.complete 7 864000 0) :=
  ⟨(transition_replay_idempotent defaultConfig demoDone (.complete 7 864000 0)).2
      7 864000 0 rfl,
   (transition_replay_idempotent defaultConfig demoDone (.complete 7 864000 0)).1 2⟩

/-! ## Payout Scheduler theorems -/

/-- Claim C9: a payout sweep emits one Payout ledger entry equal to the
settled balance, after which `balanceFor` yields the pre-sweep balance minus
the swept amount, and zero when the funds were fully settled; `balanceFor`
itself sums the signed entries, payouts already swept counting negatively. -/
theorem payout_sweep_round_trip (l : List LedgerEntry) (pid now upto trigger : Nat)
    (hpos : 0 < settledBalance l pid now) (hup : now ≤ upto) :
    sweepPayout l pid now trigger =
      l ++ [⟨0, pid, .payout, (settledBalance l pid now).toNat, .platform, .processor, now,
        (0, .payout, trigger)⟩] ∧
    balanceFor (sweepPayout l pid now trigger) pid upto =
      balanceFor l pid upto - settledBalance l pid now ∧
    (balanceFor l pid upto = settledBalance l pid now →
      balanceFor (sweepPayout l pid now trigger) pid upto = 0) := by
  have hsw : sweepPayout l pid now trigger =
      l ++ [⟨0, pid, .payout, (settledBalance l pid now).toNat, .platform, .processor, now,
        (0, .payout, trigger)⟩] := by
    unfold sweepPayout
    rw [if_pos hpos]
  have hbal : balanceFor (sweepPayout l pid now trigger) pid upto =
      balanceFor l pid upto - settledBalance l pid now := by
    rw [hsw]
    unfold balanceFor
    rw [List.filter_append, List.map_append, List.sum_append]
    have hkeep : (List.filter
        (fun e => decide (e.provider_id = pid ∧ e.created_at ≤ upto))
        [(⟨0, pid, .payout, (settledBalance l pid now).toNat, .platform, .processor, now,
          (0, .payout, trigger)⟩ : LedgerEntry)]) =
        [⟨0, pid, .payout, (settledBalance l pid now).toNat, .platform, .processor, now,
          (0, .payout, trigger)⟩] := by
      simp [hup]
    rw [hkeep]
    simp only [List.map_cons, List.map_nil, List.sum_cons, List.sum_nil, providerSigned]
    rw [Int.toNat_of_nonneg (le_of_lt hpos)]
    ring
  exact ⟨hsw, hbal, fun hfull => by rw [hbal, hfull, sub_self]⟩

/-- A provider ledger holding one settled cancellation fee. -/
def demoPayLedger : List LedgerEntry :=
  [⟨1, 200, .cancellationFee, 1500, .escrow, .provider, 0, (1, .cancellationFee, 3)⟩]

/-- Witness for C9: sweeping the fully settled $15 fee drives the balance to
zero, the emitted payout equalling the settled balance. -/
theorem payout_sweep_round_trip_witness :
    balanceFor (sweepPayout demoPayLedger 200 86400 9) 200 86400 = 0 ∧
    sweepPayout demoPayLedger 200 86400 9 =
      demoPayLedger ++ [⟨0, 200, .payout, (settledBalance demoPayLedger 200 86400).toNat,
        .platform, .processor, 86400, (0, .payout, 9)⟩] :=
  ⟨(payout_sweep_round_trip demoPayLedger 200 86400 86400 9 (by decide) (by decide)).2.2
      (by decide),
   (payout_sweep_round_trip demoPayLedger 200 86400 86400 9 (by decide) (by decide)).1⟩

end Byootify
